import Mathlib

/-!
Verification of the dts-tools binary-header codecs and virtual-filesystem
layers against their natural-language specification.  Each Rust function
under scrutiny is shallowly embedded as an executable Lean definition;
machine integers are modelled as `Nat` (values are kept in range by the
surrounding checks, mirroring the source), fallible Rust functions
(`Result`) are modelled with `Except`, and `Vec<u8>` buffers are `List Nat`.
-/

deriving instance DecidableEq for Except

namespace DtsTools

/-! ## BCD codec (src/bcd.rs) -/

/-- Embedding of `bcd_to_decimal` (src/bcd.rs): split the byte into nibbles,
reject a nibble ≥ 10, otherwise return `tens * 10 + units`. -/
def bcd_to_decimal (value : Nat) : Except String Nat :=
  let tens := value >>> 4
  let units := value &&& 0xF
  if tens ≥ 10 ∨ units ≥ 10 then
    .error "Could not unpack BCD value"
  else
    .ok (tens * 10 + units)

/-- Embedding of `decimal_to_bcd` (src/bcd.rs): reject values above 99,
otherwise pack `value / 10` and `value % 10` into the two nibbles. -/
def decimal_to_bcd (value : Nat) : Except String Nat :=
  if value > 99 then
    .error "Could not pack value to BCD"
  else
    let tens := value / 10
    let units := value % 10
    .ok ((tens <<< 4) ||| units)

/-! ## SND offset codec (src/snd.rs) -/

/-- The `Offset` record from src/metadata.rs (all four fields are `u8`). -/
structure Offset where
  frames : Nat
  seconds : Nat
  minutes : Nat
  hours : Nat
  deriving DecidableEq, Repr

/-- Embedding of `get_offset` (src/snd.rs): decode a 4-byte quad
`[frames, seconds, minutes, hours]`.  Seconds and minutes strip a `+0x60`
bias when the raw byte exceeds `0x60`; an all-zero decode yields `none`. -/
def get_offset (b0 b1 b2 b3 : Nat) : Except String (Option Offset) :=
  match bcd_to_decimal b0 with
  | .error e => .error e
  | .ok frames =>
    match bcd_to_decimal (if b1 > 0x60 then b1 - 0x60 else b1) with
    | .error e => .error e
    | .ok seconds =>
      match bcd_to_decimal (if b2 > 0x60 then b2 - 0x60 else b2) with
      | .error e => .error e
      | .ok minutes =>
        match bcd_to_decimal b3 with
        | .error e => .error e
        | .ok hours =>
          if frames = 0 ∧ seconds = 0 ∧ minutes = 0 ∧ hours = 0 then
            .ok none
          else
            .ok (some { frames, seconds, minutes, hours })

/-- Embedding of `insert_offset` (src/snd.rs): the four bytes pushed onto
the output buffer for an optional offset (`[0,0,0,0]` for `none`). -/
def insert_offset (offset : Option Offset) : Except String (List Nat) :=
  match offset with
  | some o =>
    match decimal_to_bcd o.frames, decimal_to_bcd o.seconds,
        decimal_to_bcd o.minutes, decimal_to_bcd o.hours with
    | .ok b0, .ok b1, .ok b2, .ok b3 => .ok [b0, b1, b2, b3]
    | .error e, _, _, _ => .error e
    | _, .error e, _, _ => .error e
    | _, _, .error e, _ => .error e
    | _, _, _, .error e => .error e
  | none => .ok [0, 0, 0, 0]

/-! ## SND metadata model (src/metadata.rs) and header encoder (src/snd.rs)

Rust `String` fields are modelled by their UTF-8 byte sequences
(`List Nat`), which is exactly what `encode_header` consumes via
`String::as_bytes`. -/

/-- `Revision` from src/metadata.rs. -/
inductive Revision where
  | H1
  | XD
  | XDA
  deriving DecidableEq, Repr

/-- `SndType` from src/metadata.rs. -/
inductive SndType where
  | Feature
  | Trailer
  deriving DecidableEq, Repr

/-- `BackupSoundtrackFormat` from src/metadata.rs (a `#[repr(u8)]` enum). -/
inductive BackupSoundtrackFormat where
  | DolbyA
  | DolbySR
  | Academy
  | NonSync
  | LastReelDolbySR
  deriving DecidableEq, Repr

/-- The discriminant of `BackupSoundtrackFormat` (its `as u8` value). -/
def BackupSoundtrackFormat.toByte : BackupSoundtrackFormat → Nat
  | .DolbyA => 0x00
  | .DolbySR => 0x01
  | .Academy => 0x02
  | .NonSync => 0x80
  | .LastReelDolbySR => 0x81

/-- `XDAMetadata` from src/metadata.rs. -/
structure XDAMetadata where
  source : Option (List Nat)
  mix : Option (List Nat)
  lfe_level : Option (List Nat)
  surround_delay : Option (List Nat)
  filters : Option (List Nat)
  deriving DecidableEq, Repr

/-- `XDMetadata` from src/metadata.rs. -/
structure XDMetadata where
  language : Option (List Nat)
  xda : Option XDAMetadata
  deriving DecidableEq, Repr

/-- `SndFileMetadata` from src/metadata.rs. -/
structure SndFileMetadata where
  revision : Revision
  snd_type : SndType
  id : Nat
  reel : Nat
  title : List Nat
  studio : Option (List Nat)
  optical_backup : BackupSoundtrackFormat
  tracks : Nat
  start_offset : Option Offset
  end_offset : Option Offset
  encryption_key : Option Nat
  xd : Option XDMetadata
  deriving DecidableEq, Repr

/-- Embedding of `insert_max` (src/snd.rs), returning the extended buffer.
When `value.length ≥ max` the first `max` bytes of the value are appended;
otherwise ONLY `max - value.length` fill bytes are appended (the value
itself is never written in that branch — mirrored faithfully from the
source). -/
def insert_max (buffer value : List Nat) (fill : Nat) (max : Nat) : List Nat :=
  if value.length ≥ max then
    buffer ++ value.take max
  else
    buffer ++ List.replicate (max - value.length) fill

/-- Embedding of `insert_optional` (src/snd.rs): a present value is
introduced by an ASCII space marker byte then written via `insert_max`;
an absent value collapses to `len + 1` fill bytes. -/
def insert_optional (buffer : List Nat) (value : Option (List Nat))
    (fill : Nat) (len : Nat) : List Nat :=
  match value with
  | some v => insert_max (buffer ++ [0x20]) v fill len
  | none => buffer ++ List.replicate (len + 1) fill

/-- Embedding of `encode_header` (src/snd.rs): revision-driven emission of
the SND base header (errors can only arise from BCD-packing the offsets). -/
def encode_header (data : SndFileMetadata) : Except String (List Nat) :=
  let buffer : List Nat := []
  let buffer :=
    match data.xd with
    | some xd =>
      let buffer :=
        match xd.xda with
        | some xda =>
          let buffer := insert_max buffer data.title 0x20 18
          let buffer := insert_optional buffer xda.source 0x20 12
          let buffer := insert_optional buffer xda.mix 0x20 15
          let buffer := insert_optional buffer xda.lfe_level 0x20 2
          let buffer := buffer ++ [if xda.lfe_level.isSome then 0x44 else 0x20]
          let buffer := insert_optional buffer xda.surround_delay 0x20 3
          let buffer := insert_optional buffer xda.filters 0x20 3
          buffer ++ [0x20]
        | none => insert_max buffer data.title 0 60
      let buffer :=
        match xd.language with
        | some lang => insert_max (buffer ++ [0x2A]) lang 0 4
        | none => buffer ++ List.replicate 5 0
      buffer ++ [0, 0, 0]
    | none => insert_max buffer data.title 0 67
  let buffer := insert_optional buffer data.studio 0 4
  let buffer := buffer ++ [0, 0, 0]
  let buffer := buffer ++ [data.optical_backup.toByte, 0, 0]
  let buffer := buffer ++ [data.reel, 0]
  let buffer := buffer ++ [data.id &&& 0xFF, data.id >>> 8]
  let buffer := buffer ++ [data.tracks, 0]
  match insert_offset data.start_offset, insert_offset data.end_offset with
  | .ok so, .ok eo => .ok (buffer ++ so ++ eo)
  | .error e, _ => .error e
  | _, .error e => .error e

/-- UTF-8 bytes of an ASCII string (all string constants involved are
ASCII, where UTF-8 is the identity on code points). -/
def asciiBytes (s : String) : List Nat := s.data.map Char.toNat

/-- Embedding of `get_generic_trailers_header` (src/snd.rs): the canonical
all-trailer-reel header handed to `encode_header` by the extract pipeline. -/
def get_generic_trailers_header : SndFileMetadata where
  revision := .XD
  snd_type := .Trailer
  id := 1045
  reel := 14
  title := asciiBytes "Trailers Reel 14"
  studio := some (asciiBytes "none")
  optical_backup := .DolbySR
  tracks := 5
  encryption_key := none
  xd := some { language := some (asciiBytes "ENG"), xda := none }
  start_offset := none
  end_offset := none

/-! ## SND revision classification (src/metadata.rs) -/

/-- The nine-byte XDA shape test inside `Revision::from_header`:
spaces at 18, 31, 47, 51, 55, 59, the letter D at 50 and zero bytes at
65 and 66. -/
def xdaPattern (b : Fin 95 → Nat) : Prop :=
  b 18 = 0x20 ∧ b 31 = 0x20 ∧ b 47 = 0x20 ∧ b 50 = 0x44 ∧ b 51 = 0x20 ∧
    b 55 = 0x20 ∧ b 59 = 0x20 ∧ b 65 = 0 ∧ b 66 = 0

instance (b : Fin 95 → Nat) : Decidable (xdaPattern b) := by
  unfold xdaPattern
  infer_instance

/-- Embedding of `Revision::from_header` (src/metadata.rs) over a 95-byte
SND header viewed as a function from byte index to byte value. -/
def Revision.from_header (b : Fin 95 → Nat) : Revision :=
  if b 60 = 0x2A then
    if xdaPattern b then .XDA else .XD
  else
    .H1

/-! ## Trailers manifest codec (src/trailers.rs)

The decoder consumes the file line by line (`BufRead::lines`, newline and
carriage return already stripped), so the input is modelled as the list of
line strings. -/

/-- `TrailersMetadataTxtEntry` from src/metadata.rs; `end_` models the
Rust field `end` (a Lean keyword). -/
structure TrailersMetadataTxtEntry where
  title : String
  id : Nat
  start : Nat
  end_ : Nat
  offset : Nat
  deriving DecidableEq, Repr

/-- Errors of the trailers decoder: `parse` is
`ParseTrailerMetadataTxtError` from src/error.rs with its `(file, line,
position)` payload; `intParse` stands for a boxed integer-parse error
propagated by `?` from `str::parse`. -/
inductive TrailersError where
  | parse (file : String) (line : String) (position : Nat)
  | intParse
  deriving DecidableEq, Repr

/-- Rust `char::is_ascii_whitespace`: space, tab, newline, form feed,
carriage return. -/
def isAsciiWhitespaceChar (c : Char) : Bool :=
  c = ' ' ∨ c = '\t' ∨ c = '\n' ∨ c.toNat = 0xC ∨ c = '\r'

/-- Worker for `split_ascii_whitespace`: accumulate the current token in
reverse, emit it at each whitespace boundary, drop empty tokens. -/
def splitAsciiWhitespaceAux : List Char → List Char → List String
  | [], acc => if acc.isEmpty then [] else [String.mk acc.reverse]
  | c :: cs, acc =>
    if isAsciiWhitespaceChar c then
      if acc.isEmpty then
        splitAsciiWhitespaceAux cs []
      else
        String.mk acc.reverse :: splitAsciiWhitespaceAux cs []
    else
      splitAsciiWhitespaceAux cs (c :: acc)

/-- Rust `str::split_ascii_whitespace`. -/
def split_ascii_whitespace (s : String) : List String :=
  splitAsciiWhitespaceAux s.data []

/-- An ASCII character (code point below 128). -/
def isAsciiChar (c : Char) : Bool := c.toNat < 128

/-- The ASCII fragment of Rust `char::is_alphanumeric`: ASCII letters and
digits.  The source predicate is the Unicode one; on ASCII characters the
two coincide exactly, so the trailers theorems below state the
alphanumeric-boundary behavior only for lines all of whose characters are
ASCII (`isAsciiChar`), where this embedding is exact. -/
def isAsciiAlphanumericChar (c : Char) : Bool :=
  (0x41 ≤ c.toNat ∧ c.toNat ≤ 0x5A) ∨ (0x61 ≤ c.toNat ∧ c.toNat ≤ 0x7A) ∨
    (0x30 ≤ c.toNat ∧ c.toNat ≤ 0x39)

/-- Accumulating decimal-digit parser (`None` on the first non-digit). -/
def parseDigitsAux : List Char → Nat → Option Nat
  | [], acc => some acc
  | c :: cs, acc =>
    if c.isDigit then parseDigitsAux cs (acc * 10 + (c.toNat - 48)) else none

/-- Rust `str::parse` for an unsigned integer type whose exclusive upper
bound is `bound`: an optional leading plus sign, then one or more ASCII
digits, and the value must fit. -/
def rust_parse_uint (s : String) (bound : Nat) : Option Nat :=
  let cs := match s.data with
    | '+' :: rest => rest
    | cs => cs
  match cs with
  | [] => none
  | _ =>
    match parseDigitsAux cs 0 with
    | none => none
    | some v => if v < bound then some v else none

/-- Embedding of `line_to_entry` (src/trailers.rs): a 5-token line parses
into an entry (`id : u16`, `start : u32`, `end`/`offset : usize`); a
non-5-token line is skipped when NOT all of its characters are
alphanumeric, and is an error carrying `(path, line, position + 2)` when
they all are.  The source tests `char::is_alphanumeric` (Unicode); this
embedding uses its ASCII fragment and is therefore exact on lines made of
ASCII characters, which is how the theorems below quantify it. -/
def line_to_entry (line : String) (position : Nat) (path : String) :
    Except TrailersError (Option TrailersMetadataTxtEntry) :=
  let tokens := split_ascii_whitespace line
  if tokens.length = 5 then
    match rust_parse_uint (tokens.getD 1 "") (2 ^ 16),
        rust_parse_uint (tokens.getD 2 "") (2 ^ 32),
        rust_parse_uint (tokens.getD 3 "") (2 ^ 64),
        rust_parse_uint (tokens.getD 4 "") (2 ^ 64) with
    | some id, some start, some endv, some off =>
      .ok (some ⟨tokens.getD 0 "", id, start, endv, off⟩)
    | _, _, _, _ => .error .intParse
  else
    if ¬ line.data.all isAsciiAlphanumericChar then
      .ok none
    else
      .error (.parse path line (position + 2))

/-- Rust `str::starts_with(';')` on a manifest line. -/
def lineIsComment (line : String) : Bool :=
  match line.data with
  | c :: _ => c = ';'
  | [] => false

/-- The enumerated loop body of `decode_trailers_from_txt_file`
(src/trailers.rs): skip comment lines, feed the rest through
`line_to_entry` with its 0-based enumeration index, keep the `some`
results. -/
def decode_trailers_aux (path : String) :
    List String → Nat → Except TrailersError (List TrailersMetadataTxtEntry)
  | [], _ => .ok []
  | line :: rest, i =>
    if lineIsComment line then
      decode_trailers_aux path rest (i + 1)
    else
      match line_to_entry line i path with
      | .error e => .error e
      | .ok entry =>
        match decode_trailers_aux path rest (i + 1) with
        | .error e => .error e
        | .ok others =>
          match entry with
          | some e => .ok (e :: others)
          | none => .ok others

/-- Embedding of `decode_trailers_from_txt_file` (src/trailers.rs) over the
already-split line list. -/
def decode_trailers_from_txt (lines : List String) (path : String) :
    Except TrailersError (List TrailersMetadataTxtEntry) :=
  decode_trailers_aux path lines 0

/-! ## Disc-tree recognizer (src/cd.rs) -/

/-- `FileType` from src/file.rs. -/
inductive VfsFileType where
  | Directory
  | File
  deriving DecidableEq, Repr

/-- A directory entry as the recognizer sees it: its on-disk basename and
its type (`DirEntry::path` / `DirEntry::file_type`, both modelled total). -/
structure VfsDirEntry where
  rawName : String
  ftype : VfsFileType
  deriving DecidableEq, Repr

/-- Rust `str::to_ascii_lowercase`. -/
def rustToAsciiLowercase (s : String) : String :=
  String.mk (s.data.map fun c =>
    if 65 ≤ c.toNat ∧ c.toNat ≤ 90 then Char.ofNat (c.toNat + 32) else c)

/-- The `DirEntry::file_name` default implementation (src/file.rs): the
basename of `path()`, ASCII-lowercased. -/
def VfsDirEntry.file_name (e : VfsDirEntry) : String :=
  rustToAsciiLowercase e.rawName

/-- The scanning loop of `get_if_dts_cd` (src/cd.rs): track whether a file
named `dts.exe` and a directory named `dts` (per `file_name`, hence
lowercased) have been seen; return as soon as both are found (`read_dir`
on the `dts` entry is assumed to succeed — its contents are not needed for
recognition). -/
def get_if_dts_cd_loop : List VfsDirEntry → Bool → Bool → Bool
  | [], _, _ => false
  | e :: rest, exeFound, dirFound =>
    let exeFound :=
      if e.ftype = .File ∧ e.file_name = "dts.exe" then true else exeFound
    let dirFound :=
      if e.ftype = .Directory ∧ e.file_name = "dts" then true else dirFound
    if exeFound ∧ dirFound then true else get_if_dts_cd_loop rest exeFound dirFound

/-- Embedding of `get_if_dts_cd` (src/cd.rs) as the recognition predicate:
`true` exactly when the source returns `Ok(Some(_))`. -/
def get_if_dts_cd (entries : List VfsDirEntry) : Bool :=
  get_if_dts_cd_loop entries false false

/-! ## File handles (src/file.rs, src/osfile.rs, src/partitionfile.rs) -/

/-- I/O errors relevant to the models: `invalidInput` carries the message
of `std::io::Error::new(ErrorKind::InvalidInput, msg)`; `panicArith` marks
an unsigned-integer overflow that a debug build panics on. -/
inductive IoErr where
  | invalidInput (msg : String)
  | panicArith
  deriving DecidableEq, Repr

/-- `std::io::SeekFrom`; `fromEnd` models the `End` variant (a Lean
keyword). -/
inductive SeekFrom where
  | start (offset : Nat)
  | fromEnd (offset : Int)
  | current (offset : Int)
  deriving DecidableEq, Repr

/-- The operations the `File` trait (src/file.rs) builds its default
methods from, over an abstract handle state `σ`.  `pos` is the observable
logical stream position (what `stream_position` is meant to report). -/
structure FileOps (σ : Type) where
  pos : σ → Nat
  stream_position : σ → Except IoErr (Nat × σ)
  seek_start : σ → Nat → Except IoErr (Nat × σ)
  read : σ → Nat → Except IoErr (List Nat × σ)
  read_exact : σ → Nat → Except IoErr (List Nat × σ)

/-- The `File::read_buffer_at` default implementation (src/file.rs):
remember the stream position, seek to `p`, read up to `bufLen` bytes,
seek back. -/
def read_buffer_at {σ : Type} (ops : FileOps σ) (s : σ) (bufLen p : Nat) :
    Except IoErr (List Nat × σ) :=
  match ops.stream_position s with
  | .error e => .error e
  | .ok (position, s) =>
    match ops.seek_start s p with
    | .error e => .error e
    | .ok (_, s) =>
      match ops.read s bufLen with
      | .error e => .error e
      | .ok (buf, s) =>
        match ops.seek_start s position with
        | .error e => .error e
        | .ok (_, s) => .ok (buf, s)

/-- The `File::read_exact_bytes_at` default implementation (src/file.rs):
like `read_buffer_at` but through `read_exact`, which either fills the
whole buffer or fails. -/
def read_exact_bytes_at {σ : Type} (ops : FileOps σ) (s : σ) (bytes p : Nat) :
    Except IoErr (List Nat × σ) :=
  match ops.stream_position s with
  | .error e => .error e
  | .ok (position, s) =>
    match ops.seek_start s p with
    | .error e => .error e
    | .ok (_, s) =>
      match ops.read_exact s bytes with
      | .error e => .error e
      | .ok (buf, s) =>
        match ops.seek_start s position with
        | .error e => .error e
        | .ok (_, s) => .ok (buf, s)

/-- A host-OS file (src/osfile.rs wraps `fs::File`): plain bytes plus a
cursor.  The OS permits seeking past end; reads return the bytes available
at the cursor. -/
structure OsFile where
  data : List Nat
  pos : Nat
  deriving DecidableEq, Repr

/-- `FileOps` for the host-OS file model. -/
def osFileOps : FileOps OsFile where
  pos f := f.pos
  stream_position f := .ok (f.pos, f)
  seek_start f p := .ok (p, { f with pos := p })
  read f n :=
    let b := (f.data.drop f.pos).take n
    .ok (b, { f with pos := f.pos + b.length })
  read_exact f n :=
    if f.pos + n ≤ f.data.length then
      .ok ((f.data.drop f.pos).take n, { f with pos := f.pos + n })
    else
      .error (.invalidInput "failed to fill whole buffer")

/-- `PartitionFile` (src/partitionfile.rs): an `(start, len)` window over a
shared parent handle, with its own logical cursor `current`. -/
structure PartitionFile where
  start : Nat
  len : Nat
  current : Nat
  parent : OsFile
  deriving DecidableEq, Repr

/-- Embedding of `impl Seek for PartitionFile` (src/partitionfile.rs).
The `SeekFrom::End` arm performs `self.current -= from_end.unsigned_abs()`
on the CURRENT cursor (not on `len`); when the subtrahend exceeds the
cursor the `u64` subtraction overflows, which is `panicArith` here. -/
def PartitionFile.seek (f : PartitionFile) :
    SeekFrom → Except IoErr (Nat × PartitionFile)
  | .start offset =>
    if offset > f.len then
      .error (.invalidInput "trying to seek past end of file")
    else
      .ok (offset, { f with current := offset })
  | .fromEnd from_end =>
    if from_end > 0 then
      .error (.invalidInput "trying to seek past end of file")
    else if from_end.natAbs > f.len then
      .error (.invalidInput "trying to seek before start of file")
    else if from_end.natAbs > f.current then
      .error .panicArith
    else
      .ok (f.current - from_end.natAbs,
        { f with current := f.current - from_end.natAbs })
  | .current new =>
    let new_current : Int := (f.current : Int) + new
    if new_current < 0 then
      .error (.invalidInput "trying to seek before start of file")
    else if new_current > (f.len : Int) then
      .error (.invalidInput "trying to seek past end of file")
    else
      .ok (new_current.toNat, { f with current := new_current.toNat })

/-- Embedding of `impl Read for PartitionFile` (src/partitionfile.rs):
clamp the request to the window, delegate to the parent handle through
`read_buffer_at`, advance the cursor by the bytes actually read.  Returns
the byte count like the Rust `read`. -/
def PartitionFile.read (f : PartitionFile) (bufLen : Nat) :
    Except IoErr (Nat × PartitionFile) :=
  let buf_len := if bufLen > f.len - f.current then f.len - f.current else bufLen
  match read_buffer_at osFileOps f.parent buf_len (f.start + f.current) with
  | .error e => .error e
  | .ok (bytes, parent2) =>
    .ok (bytes.length,
      { f with current := f.current + bytes.length, parent := parent2 })

/-! ## SquashFS metadata logical reader (src/squashfsfile.rs)

`get_metadata` (the LRU-backed block fetch) is modelled as a pure partial
map from on-disk block offset to the decompressed payload plus the offset
of the following block — exactly the `SquashFsBlockEntry` it returns;
`none` covers every failure of `read_block`.  The `loop` in
`read_metadata` is expressed with an explicit iteration budget (`fuel`);
`none` also covers the todo panic of the source on an offset beyond the block
payload. -/

/-- `SquashFsBlockEntry` from src/squashfsfile.rs. -/
structure SquashFsBlockEntry where
  data : List Nat
  next : Nat
  deriving DecidableEq, Repr

/-- `SquashFsMetadataEntry` from src/squashfsfile.rs: the logical bytes
plus the `(block, offset)` continuation cursor. -/
structure SquashFsMetadataEntry where
  data : List Nat
  block : Nat
  offset : Nat
  deriving DecidableEq, Repr

/-- Embedding of `SquashFsFileSystemInternal::read_metadata`
(src/squashfsfile.rs): gather `length` logical bytes starting at
`(block, offset)`, hopping to `entry.next` with offset 0 whenever the
current block is exhausted; the returned cursor points just past the bytes
read. -/
def read_metadata (blocks : Nat → Option SquashFsBlockEntry) :
    Nat → Nat → Nat → Nat → Option SquashFsMetadataEntry
  | 0, _, _, _ => none
  | fuel + 1, block, offset, length =>
    match blocks block with
    | none => none
    | some entry =>
      if entry.data.length < offset then
        none
      else if entry.data.length - offset < length then
        match read_metadata blocks fuel entry.next 0
            (length - (entry.data.length - offset)) with
        | none => none
        | some tail =>
          some ⟨entry.data.drop offset ++ tail.data, tail.block, tail.offset⟩
      else if entry.data.length - offset = length then
        some ⟨(entry.data.drop offset).take length, entry.next, 0⟩
      else
        some ⟨(entry.data.drop offset).take length, block, offset + length⟩

/-! ## ISO9660 directory record walk (src/isofile.rs) -/

/-- The slice of an `IsoDirectory` record that the walk itself produces
and consumes: where its 33-byte fixed header starts in the extent, its
`length` byte, and its identifier bytes. -/
structure IsoRecordView where
  start : Nat
  length : Nat
  name : List Nat
  deriving DecidableEq, Repr

/-- Embedding of the record loop of `IsoFileSystem::get_children`
(src/isofile.rs) over the directory extent `bytes` (`bytes.length` is the
`data_length` of the extent).  Stop when `current + 33 ≥ len` or on a zero
`length` byte; otherwise emit the record at `current` and advance by its
`length` byte.  (The identifier slice is truncated at the extent end here;
the Rust slice would panic there, a case no claim depends on.) -/
def get_children_walk (bytes : List Nat) (current : Nat) : List IsoRecordView :=
  if bytes.length ≤ current + 33 then
    []
  else if bytes.getD current 0 = 0 then
    []
  else
    { start := current, length := bytes.getD current 0,
      name := (bytes.drop (current + 33)).take (bytes.getD (current + 32) 0) }
      :: get_children_walk bytes (current + bytes.getD current 0)
termination_by bytes.length - current
decreasing_by
  simp only [not_le] at *
  omega

/-- `get_children` starts the walk at offset 0 of the extent. -/
def get_children (bytes : List Nat) : List IsoRecordView :=
  get_children_walk bytes 0

/-- Modelled from the wording of the claim, for comparison with
`get_children_walk`: walking "stops at the first record whose length byte
is 0 or as soon as fewer than 34 bytes remain in the extent before the
next 33-byte fixed header", and "each next record starts `length` bytes
after the previous one". -/
def claimed_children_walk (bytes : List Nat) (current : Nat) : List IsoRecordView :=
  if bytes.length - current < 34 then
    []
  else if bytes.getD current 0 = 0 then
    []
  else
    { start := current, length := bytes.getD current 0,
      name := (bytes.drop (current + 33)).take (bytes.getD (current + 32) 0) }
      :: claimed_children_walk bytes (current + bytes.getD current 0)
termination_by bytes.length - current
decreasing_by
  simp only [not_lt] at *
  omega

/-! ## Concrete test vectors and proof-level shorthand -/

/-- The packed BCD byte of a two-digit value (proof-level shorthand). -/
def bcdByte (v : Nat) : Nat := ((v / 10) <<< 4) ||| (v % 10)

/-- A 95-byte header of all zeros (byte 60 is not an asterisk). -/
def exH1Header : Fin 95 → Nat := fun _ => 0

/-- Agrees with `exH1Header` exactly on the ten revision-governing bytes
and differs everywhere else. -/
def exH1HeaderVariant : Fin 95 → Nat := fun i =>
  if i ∈ ([18, 31, 47, 50, 51, 55, 59, 60, 65, 66] : List (Fin 95)) then 0 else 9

/-- A header with the asterisk at 60 and the full XDA shape. -/
def exXdaHeader : Fin 95 → Nat := fun i =>
  if i = 60 then 0x2A
  else if i = 50 then 0x44
  else if i = 18 ∨ i = 31 ∨ i = 47 ∨ i = 51 ∨ i = 55 ∨ i = 59 then 0x20
  else 0

/-- A header with the asterisk at 60 but not the XDA shape. -/
def exXdHeader : Fin 95 → Nat := fun i => if i = 60 then 0x2A else 7

/-- A 73-byte directory extent: one record of declared length 40 whose
one-byte identifier is `A`, followed at offset 40 by a record whose
33-byte fixed header ends exactly at the extent boundary (the walk must
not return it). -/
def exIsoExtent : List Nat :=
  [40] ++ List.replicate 31 0 ++ [1, 65] ++ List.replicate 6 0 ++
    [33] ++ List.replicate 32 0

/-- Blocks of an example SquashFS metadata stream: block 0 holds 3 bytes
and chains to block 9, which holds 2 bytes and chains to block 14. -/
def exBlocks : Nat → Option SquashFsBlockEntry := fun b =>
  if b = 0 then some ⟨[1, 2, 3], 9⟩
  else if b = 9 then some ⟨[4, 5], 14⟩
  else none

/-! ## Theorems -/

theorem bcd_encode_ok (v : Nat) (hv : v ≤ 99) :
    decimal_to_bcd v = .ok (bcdByte v) ∧ bcd_to_decimal (bcdByte v) = .ok v :=
  (by decide : ∀ w : Fin 100,
    decimal_to_bcd w.val = .ok (bcdByte w.val) ∧
      bcd_to_decimal (bcdByte w.val) = .ok w.val) ⟨v, by omega⟩

theorem bcd_byte_le96 (v : Nat) (hv : v ≤ 60) : bcdByte v ≤ 0x60 :=
  (by decide : ∀ w : Fin 61, bcdByte w.val ≤ 0x60) ⟨v, by omega⟩

set_option maxRecDepth 8192 in
theorem bcd_decode_ok (b : Nat) (hb : b < 256) (hhi : b >>> 4 < 10)
    (hlo : b &&& 0xF < 10) :
    bcd_to_decimal b = .ok ((b >>> 4) * 10 + (b &&& 0xF)) ∧
      decimal_to_bcd ((b >>> 4) * 10 + (b &&& 0xF)) = .ok b :=
  (by decide : ∀ w : Fin 256, w.val >>> 4 < 10 → w.val &&& 0xF < 10 →
    bcd_to_decimal w.val = .ok ((w.val >>> 4) * 10 + (w.val &&& 0xF)) ∧
      decimal_to_bcd ((w.val >>> 4) * 10 + (w.val &&& 0xF)) = .ok w.val)
    ⟨b, hb⟩ hhi hlo

/-- C9: for every `v ∈ [0,99]` BCD encoding succeeds with
`((v/10)<<4)|(v%10)` and decoding that byte returns `v`; for every byte
with both nibbles in `[0,9]` decoding succeeds with `high*10 + low` and
re-encoding gives the byte back; encoding fails beyond 99 and decoding
fails on any nibble ≥ 10. -/
theorem c9_bcd_codec :
    (∀ v : Nat, v ≤ 99 →
      decimal_to_bcd v = .ok (((v / 10) <<< 4) ||| (v % 10)) ∧
      bcd_to_decimal (((v / 10) <<< 4) ||| (v % 10)) = .ok v) ∧
    (∀ b : Nat, b < 256 → b >>> 4 < 10 → b &&& 0xF < 10 →
      bcd_to_decimal b = .ok ((b >>> 4) * 10 + (b &&& 0xF)) ∧
      decimal_to_bcd ((b >>> 4) * 10 + (b &&& 0xF)) = .ok b) ∧
    (∀ v : Nat, v > 99 → (decimal_to_bcd v).isOk = false) ∧
    (∀ b : Nat, b >>> 4 ≥ 10 ∨ b &&& 0xF ≥ 10 → (bcd_to_decimal b).isOk = false) := by
  refine ⟨fun v hv => bcd_encode_ok v hv, fun b hb hhi hlo => bcd_decode_ok b hb hhi hlo,
    fun v hv => ?_, fun b hb => ?_⟩
  · simp [decimal_to_bcd, hv, Except.isOk, Except.toBool]
  · rcases hb with hb | hb <;> simp [bcd_to_decimal, hb, Except.isOk, Except.toBool]

/-- C9 witness: the theorem applied at `v = 15` and at the failure points
`v = 100`, `b = 0xA0`. -/
theorem c9_bcd_codec_witness :
    (decimal_to_bcd 15 = .ok 0x15 ∧ bcd_to_decimal 0x15 = .ok 15) ∧
    (decimal_to_bcd 100).isOk = false ∧ (bcd_to_decimal 0xA0).isOk = false :=
  ⟨c9_bcd_codec.1 15 (by decide), c9_bcd_codec.2.2.1 100 (by decide),
    c9_bcd_codec.2.2.2 0xA0 (by decide)⟩

/-- C3 counterexample: the offset `⟨frames 0, seconds 61, minutes 0,
hours 0⟩` has all four fields in `[0,99]`, yet its encoding `0x61` in the
seconds byte is hit by the `+0x60` bias stripping on decode and comes back
as 1, so `decode (encode o) ≠ o`. -/
theorem c3_offset_roundtrip_counterexample :
    insert_offset (some ⟨0, 61, 0, 0⟩) = .ok [0, 0x61, 0, 0] ∧
    get_offset 0 0x61 0 0 = .ok (some ⟨0, 1, 0, 0⟩) ∧
    (⟨0, 1, 0, 0⟩ : Offset) ≠ ⟨0, 61, 0, 0⟩ := by decide

/-- C3 (amended): the round trip `get_offset ∘ insert_offset = id` holds
for offsets whose frames and hours lie in `[0,99]`, whose seconds and
minutes lie in `[0,60]` (beyond 60 the bias stripping of the decoder corrupts
them), and that are not all-zero (the all-zero quad decodes to `none`);
encoding the absent offset yields the all-zero quad, which decodes to the
absent offset. -/
theorem c3_offset_roundtrip_amended :
    (∀ o : Offset, o.frames ≤ 99 → o.seconds ≤ 60 → o.minutes ≤ 60 →
      o.hours ≤ 99 →
      ¬(o.frames = 0 ∧ o.seconds = 0 ∧ o.minutes = 0 ∧ o.hours = 0) →
      ∃ b0 b1 b2 b3,
        insert_offset (some o) = .ok [b0, b1, b2, b3] ∧
        get_offset b0 b1 b2 b3 = .ok (some o)) ∧
    insert_offset none = .ok [0, 0, 0, 0] ∧
    get_offset 0 0 0 0 = .ok none := by
  refine ⟨?_, by decide, by decide⟩
  intro o hf hs hm hh hnz
  obtain ⟨ef1, ef2⟩ := bcd_encode_ok o.frames hf
  obtain ⟨es1, es2⟩ := bcd_encode_ok o.seconds (by omega)
  obtain ⟨em1, em2⟩ := bcd_encode_ok o.minutes (by omega)
  obtain ⟨eh1, eh2⟩ := bcd_encode_ok o.hours hh
  have hs96 : ¬ bcdByte o.seconds > 0x60 := by have := bcd_byte_le96 o.seconds hs; omega
  have hm96 : ¬ bcdByte o.minutes > 0x60 := by have := bcd_byte_le96 o.minutes hm; omega
  refine ⟨bcdByte o.frames, bcdByte o.seconds, bcdByte o.minutes, bcdByte o.hours, ?_, ?_⟩
  · simp [insert_offset, ef1, es1, em1, eh1]
  · simp [get_offset, hs96, hm96, ef2, es2, em2, eh2, hnz]

/-- C3 amended witness: the round trip at the in-domain offset
`⟨1, 2, 3, 4⟩`. -/
theorem c3_offset_roundtrip_amended_witness :
    (∃ b0 b1 b2 b3,
      insert_offset (some ⟨1, 2, 3, 4⟩) = .ok [b0, b1, b2, b3] ∧
      get_offset b0 b1 b2 b3 = .ok (some ⟨1, 2, 3, 4⟩)) ∧
    insert_offset (some ⟨1, 2, 3, 4⟩) = .ok [1, 2, 3, 4] :=
  ⟨c3_offset_roundtrip_amended.1 ⟨1, 2, 3, 4⟩ (by decide) (by decide)
    (by decide) (by decide) (by decide), by decide⟩

/-- C1: `encode_header` on the canonical trailers-reel record (16-byte
title, 3-byte language, both shorter than their field widths) emits only
74 bytes instead of the specified 92, and the first 44 bytes are all the
pad byte 0 — `insert_max` replaced the short title by pad bytes instead of
padding it to width. -/
theorem c1_encode_header_drops_short_fields :
    (encode_header get_generic_trailers_header).map List.length = .ok 74 ∧
    (encode_header get_generic_trailers_header).map (List.take 44) =
      .ok (List.replicate 44 0) := by decide

/-- C6: the `SeekFrom::End` arm of the partition-slice seek subtracts from
the CURRENT cursor rather than from the slice length: on a fresh handle of
length 10 a seek of 0 bytes back from end-of-file succeeds but leaves the
position at 0, not at `10 - 0 = 10`.  (The read-at-EOF conjunct shows the
part of the claim the code does satisfy: at position = length a read
returns 0 bytes.) -/
theorem c6_partition_seek_from_end_bug :
    PartitionFile.seek ⟨0, 10, 0, ⟨List.replicate 12 7, 0⟩⟩ (.fromEnd 0) =
      .ok (0, ⟨0, 10, 0, ⟨List.replicate 12 7, 0⟩⟩) ∧
    (0 : Nat) ≠ 10 - 0 ∧
    PartitionFile.read ⟨0, 10, 10, ⟨List.replicate 12 7, 0⟩⟩ 5 =
      .ok (0, ⟨0, 10, 10, ⟨List.replicate 12 7, 0⟩⟩) := by decide

/-- C2 counterexample: the purely alphanumeric single-token line
`stray1` is not tolerated: `line_to_entry` (and the whole decoder) yields
the parse error for it, where the claim says such a line is skipped as a
stray.  Both concrete lines are ASCII, where the embedded alphanumeric
test coincides exactly with the `char::is_alphanumeric` of the source. -/
theorem c2_trailers_line_counterexample :
    line_to_entry "stray1" 0 "r14trlr.txt" =
      .error (.parse "r14trlr.txt" "stray1" 2) ∧
    decode_trailers_from_txt ["stray1"] "r14trlr.txt" =
      .error (.parse "r14trlr.txt" "stray1" 2) ∧
    line_to_entry "a b" 0 "r14trlr.txt" = .ok none := by decide

/-- C2 (amended): comment lines starting with `;` are skipped; a 5-token
line whose numeric tokens parse yields an entry; and — for lines made of
ASCII characters, where the embedded alphanumeric test coincides exactly
with the `char::is_alphanumeric` of the source — a non-5-token line is
skipped when it contains some non-alphanumeric character, while any
purely alphanumeric non-5-token line (the empty line included) is the
error carrying the path, the line text and the 0-based line index plus 2
(1-based line number plus 1). -/
theorem c2_trailers_line_handling (line : String) (i : Nat) (path : String)
    (rest : List String) :
    (lineIsComment line = true →
      decode_trailers_aux path (line :: rest) i =
        decode_trailers_aux path rest (i + 1)) ∧
    (∀ t0 t1 t2 t3 t4, split_ascii_whitespace line = [t0, t1, t2, t3, t4] →
      ∀ id start endv off,
        rust_parse_uint t1 (2 ^ 16) = some id →
        rust_parse_uint t2 (2 ^ 32) = some start →
        rust_parse_uint t3 (2 ^ 64) = some endv →
        rust_parse_uint t4 (2 ^ 64) = some off →
        line_to_entry line i path = .ok (some ⟨t0, id, start, endv, off⟩)) ∧
    ((split_ascii_whitespace line).length ≠ 5 →
      line.data.all isAsciiChar = true →
      line.data.all isAsciiAlphanumericChar = false →
      line_to_entry line i path = .ok none) ∧
    ((split_ascii_whitespace line).length ≠ 5 →
      line.data.all isAsciiChar = true →
      line.data.all isAsciiAlphanumericChar = true →
      line_to_entry line i path = .error (.parse path line (i + 2))) := by
  refine ⟨fun hc => ?_, fun t0 t1 t2 t3 t4 hsplit id start endv off h1 h2 h3 h4 => ?_,
    fun hlen hascii halnum => ?_, fun hlen hascii halnum => ?_⟩
  · simp [decode_trailers_aux, hc]
  · norm_num at h1 h2 h3 h4
    simp [line_to_entry, hsplit, h1, h2, h3, h4]
  · simp [line_to_entry, hlen, halnum]
  · simp [line_to_entry, hlen, halnum]

/-- C2 amended witness: the amended theorem applied to a comment line, a
concrete well-formed 5-token line, an ASCII tolerated stray line, and an
ASCII purely alphanumeric line hitting the error. -/
theorem c2_trailers_line_handling_witness :
    decode_trailers_aux "f.txt" [";comment"] 0 = decode_trailers_aux "f.txt" [] 1 ∧
    line_to_entry "MovieA\t42\t0\t100\t92" 1 "f.txt" =
      .ok (some ⟨"MovieA", 42, 0, 100, 92⟩) ∧
    line_to_entry "a b" 0 "f.txt" = .ok none ∧
    line_to_entry "stray1" 3 "f.txt" = .error (.parse "f.txt" "stray1" 5) :=
  ⟨(c2_trailers_line_handling ";comment" 0 "f.txt" []).1 (by decide),
    (c2_trailers_line_handling "MovieA\t42\t0\t100\t92" 1 "f.txt" []).2.1
      "MovieA" "42" "0" "100" "92" (by decide) 42 0 100 92
      (by decide) (by decide) (by decide) (by decide),
    (c2_trailers_line_handling "a b" 0 "f.txt" []).2.2.1
      (by decide) (by decide) (by decide),
    (c2_trailers_line_handling "stray1" 3 "f.txt" []).2.2.2
      (by decide) (by decide) (by decide)⟩

/-- C4 counterexample: a listing holding only the upper-case names
`DTS.EXE` (file) and `DTS` (directory) — no entry named exactly `dts.exe`
or `dts` — is still recognized as a content disc, so recognition is not
case-sensitive. -/
theorem c4_disc_recognition_counterexample :
    get_if_dts_cd [⟨"DTS.EXE", .File⟩, ⟨"DTS", .Directory⟩] = true ∧
    ([⟨"DTS.EXE", .File⟩, ⟨"DTS", .Directory⟩] : List VfsDirEntry).all
      (fun e => !(e.rawName == "dts.exe") && !(e.rawName == "dts")) = true := by
  decide

theorem get_if_dts_cd_loop_spec :
    ∀ (entries : List VfsDirEntry) (exeFound dirFound : Bool),
      exeFound = false ∨ dirFound = false →
      (get_if_dts_cd_loop entries exeFound dirFound = true ↔
        ((exeFound = true ∨ ∃ e ∈ entries, e.ftype = .File ∧ e.file_name = "dts.exe") ∧
         (dirFound = true ∨ ∃ e ∈ entries, e.ftype = .Directory ∧ e.file_name = "dts")))
  | [], exeFound, dirFound, h => by
    rcases h with h | h <;> subst h <;> simp [get_if_dts_cd_loop]
  | e :: rest, exeFound, dirFound, h => by
    by_cases hf : e.ftype = .File ∧ e.file_name = "dts.exe" <;>
      by_cases hd : e.ftype = .Directory ∧ e.file_name = "dts"
    · rcases hf with ⟨hf1, _⟩; rcases hd with ⟨hd1, _⟩
      rw [hf1] at hd1; exact absurd hd1 (by decide)
    · cases dirFound with
      | true =>
        simp [get_if_dts_cd_loop, hf, hd, List.exists_mem_cons_iff]
      | false =>
        have := get_if_dts_cd_loop_spec rest true false (Or.inr rfl)
        simp [get_if_dts_cd_loop, hf, hd, this, List.exists_mem_cons_iff]
    · cases exeFound with
      | true =>
        simp [get_if_dts_cd_loop, hf, hd, List.exists_mem_cons_iff]
      | false =>
        have := get_if_dts_cd_loop_spec rest false true (Or.inl rfl)
        simp [get_if_dts_cd_loop, hf, hd, this, List.exists_mem_cons_iff]
    · have := get_if_dts_cd_loop_spec rest exeFound dirFound h
      rcases h with h | h <;> subst h <;>
        simp [get_if_dts_cd_loop, hf, hd, this, List.exists_mem_cons_iff]

/-- C4 (amended): a listing is recognized as a content disc iff it
contains a file entry and a directory entry whose LOWERCASED basenames
(`DirEntry::file_name`) are `dts.exe` and `dts` respectively — i.e. the
comparison is case-insensitive, not case-sensitive. -/
theorem c4_disc_recognition_amended (entries : List VfsDirEntry) :
    get_if_dts_cd entries = true ↔
      ((∃ e ∈ entries, e.ftype = .File ∧ e.file_name = "dts.exe") ∧
       (∃ e ∈ entries, e.ftype = .Directory ∧ e.file_name = "dts")) := by
  have h := get_if_dts_cd_loop_spec entries false false (Or.inl rfl)
  simpa [get_if_dts_cd] using h

/-- C4 amended witness: the iff instantiated at the upper-case listing. -/
theorem c4_disc_recognition_amended_witness :
    get_if_dts_cd [⟨"DTS.EXE", .File⟩, ⟨"DTS", .Directory⟩] = true :=
  (c4_disc_recognition_amended [⟨"DTS.EXE", .File⟩, ⟨"DTS", .Directory⟩]).mpr
    (by refine ⟨⟨⟨"DTS.EXE", .File⟩, by decide, by decide⟩,
      ⟨⟨"DTS", .Directory⟩, by decide, by decide⟩⟩)

/-- C8: only byte 60 and the XDA-pattern bytes 18, 31, 47, 50, 51, 55, 59,
65, 66 govern SND revision classification — two 95-byte headers agreeing
on those ten bytes classify identically — and the classification is:
no asterisk at 60 ⇒ H1; asterisk with the full XDA shape ⇒ XDA; asterisk
otherwise ⇒ XD. -/
theorem c8_revision_discrimination :
    (∀ b1 b2 : Fin 95 → Nat,
      (∀ i ∈ ([18, 31, 47, 50, 51, 55, 59, 60, 65, 66] : List (Fin 95)),
        b1 i = b2 i) →
      Revision.from_header b1 = Revision.from_header b2) ∧
    (∀ b : Fin 95 → Nat, b 60 ≠ 0x2A → Revision.from_header b = .H1) ∧
    (∀ b : Fin 95 → Nat, b 60 = 0x2A → xdaPattern b →
      Revision.from_header b = .XDA) ∧
    (∀ b : Fin 95 → Nat, b 60 = 0x2A → ¬ xdaPattern b →
      Revision.from_header b = .XD) := by
  refine ⟨fun b1 b2 hagree => ?_, fun b h60 => ?_, fun b h60 hp => ?_,
    fun b h60 hp => ?_⟩
  · have h18 := hagree 18 (by decide)
    have h31 := hagree 31 (by decide)
    have h47 := hagree 47 (by decide)
    have h50 := hagree 50 (by decide)
    have h51 := hagree 51 (by decide)
    have h55 := hagree 55 (by decide)
    have h59 := hagree 59 (by decide)
    have h60 := hagree 60 (by decide)
    have h65 := hagree 65 (by decide)
    have h66 := hagree 66 (by decide)
    simp only [Revision.from_header, xdaPattern, h18, h31, h47, h50, h51,
      h55, h59, h60, h65, h66]
  · simp [Revision.from_header, h60]
  · simp [Revision.from_header, h60, hp]
  · simp [Revision.from_header, h60, hp]

/-- C8 witness: the classification at three concrete headers, and the
agreement property between the all-zero header and a header differing on
every byte the claim says is irrelevant. -/
theorem c8_revision_discrimination_witness :
    Revision.from_header exH1Header = .H1 ∧
    Revision.from_header exXdaHeader = .XDA ∧
    Revision.from_header exXdHeader = .XD ∧
    Revision.from_header exH1Header = Revision.from_header exH1HeaderVariant :=
  ⟨c8_revision_discrimination.2.1 exH1Header (by decide),
    c8_revision_discrimination.2.2.1 exXdaHeader (by decide) (by decide),
    c8_revision_discrimination.2.2.2 exXdHeader (by decide) (by decide),
    c8_revision_discrimination.1 exH1Header exH1HeaderVariant (by decide)⟩

theorem get_children_walk_bounds (bytes : List Nat) (current : Nat) :
    ∀ r ∈ get_children_walk bytes current,
      r.start + 34 ≤ bytes.length ∧ r.length ≠ 0 := by
  induction current using get_children_walk.induct bytes with
  | case1 current h =>
    rw [get_children_walk, if_pos h]
    simp
  | case2 current h h2 =>
    rw [get_children_walk, if_neg h, if_pos h2]
    simp
  | case3 current h h2 ih =>
    rw [get_children_walk, if_neg h, if_neg h2]
    intro r hr
    rcases List.mem_cons.mp hr with hr | hr
    · subst hr
      constructor
      · show current + 34 ≤ bytes.length
        omega
      · show bytes.getD current 0 ≠ 0
        exact h2
    · exact ih r hr

theorem exIsoExtent_children_eval :
    get_children exIsoExtent = [⟨0, 40, [65]⟩] := by
  rw [get_children, get_children_walk, if_neg (by decide), if_neg (by decide),
    get_children_walk, if_pos (by decide)]
  decide

/-- C10: the ISO9660 record walk agrees with the description in the claim
(records chained `length` bytes apart, stopping at a zero length byte or
when fewer than 34 bytes remain before the next fixed header), and every
returned record starts at least 34 bytes before the extent end — hence a
final record whose 33-byte fixed header ends exactly at the extent
boundary is never returned. -/
theorem c10_iso_record_walk :
    (∀ (bytes : List Nat) (current : Nat),
      get_children_walk bytes current = claimed_children_walk bytes current) ∧
    (∀ (bytes : List Nat) (r : IsoRecordView), r ∈ get_children bytes →
      r.start + 34 ≤ bytes.length ∧ r.length ≠ 0) := by
  constructor
  · intro bytes current
    induction current using get_children_walk.induct bytes with
    | case1 current h =>
      have hc : bytes.length - current < 34 := by omega
      rw [get_children_walk, claimed_children_walk, if_pos h, if_pos hc]
    | case2 current h h2 =>
      have hc : ¬ (bytes.length - current < 34) := by omega
      rw [get_children_walk, claimed_children_walk, if_neg h, if_neg hc,
        if_pos h2, if_pos h2]
    | case3 current h h2 ih =>
      have hc : ¬ (bytes.length - current < 34) := by omega
      rw [get_children_walk, claimed_children_walk, if_neg h, if_neg hc,
        if_neg h2, if_neg h2, ih]
  · intro bytes r hr
    exact get_children_walk_bounds bytes 0 r hr

/-- C10 witness: on the concrete 73-byte extent the walk returns exactly
the record at offset 0, which satisfies the boundary property; the record
whose header ends exactly at byte 73 is absent. -/
theorem c10_iso_record_walk_witness :
    get_children_walk exIsoExtent 0 = claimed_children_walk exIsoExtent 0 ∧
    (⟨0, 40, [65]⟩ : IsoRecordView).start + 34 ≤ exIsoExtent.length ∧
    (⟨0, 40, [65]⟩ : IsoRecordView).length ≠ 0 ∧
    get_children exIsoExtent = [⟨0, 40, [65]⟩] :=
  ⟨c10_iso_record_walk.1 exIsoExtent 0,
    (c10_iso_record_walk.2 exIsoExtent ⟨0, 40, [65]⟩
      (by rw [exIsoExtent_children_eval]; exact List.mem_singleton.mpr rfl)).1,
    (c10_iso_record_walk.2 exIsoExtent ⟨0, 40, [65]⟩
      (by rw [exIsoExtent_children_eval]; exact List.mem_singleton.mpr rfl)).2,
    exIsoExtent_children_eval⟩

theorem read_metadata_length (blocks : Nat → Option SquashFsBlockEntry) :
    ∀ (fuel block offset length : Nat) (e : SquashFsMetadataEntry),
      read_metadata blocks fuel block offset length = some e →
      e.data.length = length := by
  intro fuel
  induction fuel with
  | zero => intro block offset length e h; simp [read_metadata] at h
  | succ fuel ih =>
    intro block offset length e h
    rw [read_metadata] at h
    cases hb : blocks block with
    | none => rw [hb] at h; simp at h
    | some entry =>
      try rw [hb] at h
      simp only at h
      by_cases h1 : entry.data.length < offset
      · rw [if_pos h1] at h; simp at h
      · rw [if_neg h1] at h
        by_cases h2 : entry.data.length - offset < length
        · rw [if_pos h2] at h
          cases ht : read_metadata blocks fuel entry.next 0
              (length - (entry.data.length - offset)) with
          | none => rw [ht] at h; simp at h
          | some tail =>
            rw [ht] at h
            simp only [Option.some.injEq] at h
            subst h
            have := ih entry.next 0 (length - (entry.data.length - offset)) tail ht
            simp only [List.length_append, List.length_drop]
            omega
        · rw [if_neg h2] at h
          by_cases h3 : entry.data.length - offset = length
          · rw [if_pos h3] at h
            simp only [Option.some.injEq] at h
            subst h
            simp only [List.length_take, List.length_drop]
            omega
          · rw [if_neg h3] at h
            simp only [Option.some.injEq] at h
            subst h
            simp only [List.length_take, List.length_drop]
            omega

theorem read_metadata_mono (blocks : Nat → Option SquashFsBlockEntry) :
    ∀ (fuel fuel2 block offset length : Nat) (e : SquashFsMetadataEntry),
      fuel ≤ fuel2 →
      read_metadata blocks fuel block offset length = some e →
      read_metadata blocks fuel2 block offset length = some e := by
  intro fuel
  induction fuel with
  | zero => intro fuel2 block offset length e hle h; simp [read_metadata] at h
  | succ fuel ih =>
    intro fuel2 block offset length e hle h
    cases fuel2 with
    | zero => omega
    | succ fuel2 =>
      rw [read_metadata] at h ⊢
      cases hb : blocks block with
      | none => rw [hb] at h; simp at h
      | some entry =>
        try rw [hb] at h
        try rw [hb]
        simp only at h ⊢
        by_cases h1 : entry.data.length < offset
        · rw [if_pos h1] at h; simp at h
        · rw [if_neg h1] at h ⊢
          by_cases h2 : entry.data.length - offset < length
          · rw [if_pos h2] at h ⊢
            cases ht : read_metadata blocks fuel entry.next 0
                (length - (entry.data.length - offset)) with
            | none => rw [ht] at h; simp at h
            | some tail =>
              rw [ht] at h
              rw [ih fuel2 entry.next 0 (length - (entry.data.length - offset))
                tail (by omega) ht]
              exact h
          · rw [if_neg h2] at h ⊢
            exact h

theorem read_metadata_append (blocks : Nat → Option SquashFsBlockEntry) :
    ∀ (fuel1 fuel2 block offset l1 l2 : Nat) (e1 e2 : SquashFsMetadataEntry),
      read_metadata blocks fuel1 block offset l1 = some e1 →
      read_metadata blocks fuel2 e1.block e1.offset l2 = some e2 →
      ∃ b o, read_metadata blocks (fuel1 + fuel2) block offset (l1 + l2) =
        some ⟨e1.data ++ e2.data, b, o⟩ := by
  intro fuel1
  induction fuel1 with
  | zero => intro fuel2 block offset l1 l2 e1 e2 h1 h2; simp [read_metadata] at h1
  | succ fuel1 ih =>
    intro fuel2 block offset l1 l2 e1 e2 h1 h2
    have hfs : fuel1 + 1 + fuel2 = (fuel1 + fuel2) + 1 := by omega
    rw [hfs, read_metadata]
    rw [read_metadata] at h1
    cases hb : blocks block with
    | none => rw [hb] at h1; simp at h1
    | some entry =>
      try rw [hb] at h1
      try rw [hb]
      simp only at h1 ⊢
      by_cases ho : entry.data.length < offset
      · rw [if_pos ho] at h1; simp at h1
      · rw [if_neg ho] at h1
        rw [if_neg ho]
        by_cases hlt : entry.data.length - offset < l1
        · rw [if_pos hlt] at h1
          rw [if_pos (show entry.data.length - offset < l1 + l2 by omega)]
          cases ht : read_metadata blocks fuel1 entry.next 0
              (l1 - (entry.data.length - offset)) with
          | none => rw [ht] at h1; simp at h1
          | some tail =>
            rw [ht] at h1
            simp only [Option.some.injEq] at h1
            subst h1
            simp only at h2
            obtain ⟨b, o, hcomb⟩ := ih fuel2 entry.next 0
              (l1 - (entry.data.length - offset)) l2 tail e2 ht h2
            have harg : l1 + l2 - (entry.data.length - offset) =
                l1 - (entry.data.length - offset) + l2 := by omega
            rw [harg, hcomb]
            exact ⟨b, o, by simp⟩
        · rw [if_neg hlt] at h1
          by_cases heq : entry.data.length - offset = l1
          · rw [if_pos heq] at h1
            simp only [Option.some.injEq] at h1
            subst h1
            simp only at h2
            cases hl2 : l2 with
            | zero =>
              have he2 : e2.data = [] := by
                have := read_metadata_length blocks fuel2 entry.next 0 l2 e2 h2
                rw [hl2] at this
                exact List.length_eq_zero.mp this
              rw [if_neg (show ¬ entry.data.length - offset < l1 + 0 by omega)]
              rw [if_pos (show entry.data.length - offset = l1 + 0 by omega)]
              exact ⟨entry.next, 0, by simp [he2]⟩
            | succ l2n =>
              rw [if_pos (show entry.data.length - offset < l1 + (l2n + 1) by omega)]
              have hcomb := read_metadata_mono blocks fuel2 (fuel1 + fuel2)
                entry.next 0 (l2n + 1) e2 (by omega) (hl2 ▸ h2)
              have harg : l1 + (l2n + 1) - (entry.data.length - offset) = l2n + 1 := by
                omega
              rw [harg, hcomb]
              refine ⟨e2.block, e2.offset, ?_⟩
              have hdata : List.take l1 (List.drop offset entry.data) =
                  List.drop offset entry.data := by
                apply List.take_of_length_le
                simp only [List.length_drop]
                omega
              simp [hdata]
          · rw [if_neg heq] at h1
            simp only [Option.some.injEq] at h1
            subst h1
            simp only at h2
            cases fuel2 with
            | zero => simp [read_metadata] at h2
            | succ fuel2 =>
              rw [read_metadata] at h2
              try rw [hb] at h2
              simp only at h2
              rw [if_neg (show ¬ entry.data.length < offset + l1 by omega)] at h2
              by_cases hlt2 : entry.data.length - (offset + l1) < l2
              · rw [if_pos hlt2] at h2
                cases ht2 : read_metadata blocks fuel2 entry.next 0
                    (l2 - (entry.data.length - (offset + l1))) with
                | none => rw [ht2] at h2; simp at h2
                | some tail2 =>
                  rw [ht2] at h2
                  simp only [Option.some.injEq] at h2
                  subst h2
                  rw [if_pos (show entry.data.length - offset < l1 + l2 by omega)]
                  have hcomb := read_metadata_mono blocks fuel2 (fuel1 + (fuel2 + 1))
                    entry.next 0 (l2 - (entry.data.length - (offset + l1))) tail2
                    (by omega) ht2
                  have harg : l1 + l2 - (entry.data.length - offset) =
                      l2 - (entry.data.length - (offset + l1)) := by omega
                  rw [harg, hcomb]
                  refine ⟨tail2.block, tail2.offset, ?_⟩
                  have hsplit : List.take l1 (List.drop offset entry.data) ++
                      List.drop (offset + l1) entry.data = List.drop offset entry.data := by
                    have hdd : List.drop (offset + l1) entry.data =
                        List.drop l1 (List.drop offset entry.data) := by
                      rw [List.drop_drop]
                    rw [hdd]
                    exact List.take_append_drop l1 (List.drop offset entry.data)
                  have hall : List.take l1 (List.drop offset entry.data) ++
                      (List.drop (offset + l1) entry.data ++ tail2.data) =
                      List.drop offset entry.data ++ tail2.data := by
                    rw [← List.append_assoc, hsplit]
                  simp only [hall]
              · rw [if_neg hlt2] at h2
                have htake : List.take (l1 + l2) (List.drop offset entry.data) =
                    List.take l1 (List.drop offset entry.data) ++
                      List.take l2 (List.drop (offset + l1) entry.data) := by
                  rw [List.take_add, List.drop_drop]
                by_cases heq2 : entry.data.length - (offset + l1) = l2
                · rw [if_pos heq2] at h2
                  simp only [Option.some.injEq] at h2
                  subst h2
                  rw [if_neg (show ¬ entry.data.length - offset < l1 + l2 by omega)]
                  rw [if_pos (show entry.data.length - offset = l1 + l2 by omega)]
                  exact ⟨entry.next, 0, by simp [htake]⟩
                · rw [if_neg heq2] at h2
                  simp only [Option.some.injEq] at h2
                  subst h2
                  rw [if_neg (show ¬ entry.data.length - offset < l1 + l2 by omega)]
                  rw [if_neg (show ¬ entry.data.length - offset = l1 + l2 by omega)]
                  exact ⟨block, offset + (l1 + l2), by simp [htake]⟩

/-- C5: a successful `read_metadata` returns exactly the requested number
of logical bytes, and reading `l1 + l2` bytes in one call yields the
concatenation of the bytes of a read of `l1` followed by a read of `l2`
resumed at the returned `(block, offset)` cursor — also across
metadata-block boundaries. -/
theorem c5_read_metadata_spanning (blocks : Nat → Option SquashFsBlockEntry)
    (fuel1 fuel2 block offset l1 l2 : Nat) (e1 e2 : SquashFsMetadataEntry)
    (h1 : read_metadata blocks fuel1 block offset l1 = some e1)
    (h2 : read_metadata blocks fuel2 e1.block e1.offset l2 = some e2) :
    e1.data.length = l1 ∧ e2.data.length = l2 ∧
    ∃ b o, read_metadata blocks (fuel1 + fuel2) block offset (l1 + l2) =
      some ⟨e1.data ++ e2.data, b, o⟩ :=
  ⟨read_metadata_length blocks fuel1 block offset l1 e1 h1,
    read_metadata_length blocks fuel2 e1.block e1.offset l2 e2 h2,
    read_metadata_append blocks fuel1 fuel2 block offset l1 l2 e1 e2 h1 h2⟩

/-- C5 witness: on the concrete two-block stream, reading 2 bytes at
`(block 0, offset 1)` and then 2 bytes from the returned cursor
`(block 9, offset 0)` concatenates to the single 4-byte read spanning the
block boundary. -/
theorem c5_read_metadata_spanning_witness :
    ([2, 3] : List Nat).length = 2 ∧ ([4, 5] : List Nat).length = 2 ∧
    ∃ b o, read_metadata exBlocks (3 + 3) 0 1 (2 + 2) =
      some ⟨[2, 3] ++ [4, 5], b, o⟩ :=
  c5_read_metadata_spanning exBlocks 3 3 0 1 2 2 ⟨[2, 3], 9, 0⟩ ⟨[4, 5], 14, 0⟩
    (by decide) (by decide)

theorem osFileOps_sp_law : ∀ (s : OsFile) (r : Nat) (s2 : OsFile),
    osFileOps.stream_position s = .ok (r, s2) →
    r = osFileOps.pos s ∧ osFileOps.pos s2 = osFileOps.pos s := by
  intro s r s2 h
  simp only [osFileOps] at h
  injection h with h1
  injection h1 with ha hb
  subst ha
  subst hb
  exact ⟨rfl, rfl⟩

theorem osFileOps_seek_law : ∀ (s : OsFile) (q r : Nat) (s2 : OsFile),
    osFileOps.seek_start s q = .ok (r, s2) → osFileOps.pos s2 = q := by
  intro s q r s2 h
  simp only [osFileOps] at h
  injection h with h1
  injection h1 with ha hb
  subst hb
  rfl

/-- C7: for any handle whose `stream_position` reports the logical
position and whose `seek` to an absolute offset sets it, a successful
`read_exact_bytes_at` (and likewise `read_buffer_at`) leaves the logical
stream position exactly as it was before the call. -/
theorem c7_read_at_preserves_position {σ : Type} (ops : FileOps σ)
    (hsp : ∀ s r s2, ops.stream_position s = .ok (r, s2) →
      r = ops.pos s ∧ ops.pos s2 = ops.pos s)
    (hsk : ∀ s q r s2, ops.seek_start s q = .ok (r, s2) → ops.pos s2 = q) :
    (∀ s n p buf s2, read_exact_bytes_at ops s n p = .ok (buf, s2) →
      ops.pos s2 = ops.pos s) ∧
    (∀ s n p buf s2, read_buffer_at ops s n p = .ok (buf, s2) →
      ops.pos s2 = ops.pos s) := by
  constructor
  · intro s n p buf s2 h
    rw [read_exact_bytes_at] at h
    cases h1 : ops.stream_position s with
    | error e => rw [h1] at h; simp at h
    | ok v =>
      obtain ⟨position, s1⟩ := v
      try rw [h1] at h
      simp only at h
      cases h2 : ops.seek_start s1 p with
      | error e => rw [h2] at h; simp at h
      | ok v =>
        obtain ⟨r2, sb⟩ := v
        try rw [h2] at h
        simp only at h
        cases h3 : ops.read_exact sb n with
        | error e => rw [h3] at h; simp at h
        | ok v =>
          obtain ⟨buf3, sc⟩ := v
          try rw [h3] at h
          simp only at h
          cases h4 : ops.seek_start sc position with
          | error e => rw [h4] at h; simp at h
          | ok v =>
            obtain ⟨r4, sd⟩ := v
            try rw [h4] at h
            simp only [Option.some.injEq, Except.ok.injEq, Prod.mk.injEq] at h
            obtain ⟨-, h⟩ := h
            subst h
            have hp := (hsp s position s1 h1).1
            have hd := hsk sc position r4 sd h4
            rw [hd, ← hp]
  · intro s n p buf s2 h
    rw [read_buffer_at] at h
    cases h1 : ops.stream_position s with
    | error e => rw [h1] at h; simp at h
    | ok v =>
      obtain ⟨position, s1⟩ := v
      try rw [h1] at h
      simp only at h
      cases h2 : ops.seek_start s1 p with
      | error e => rw [h2] at h; simp at h
      | ok v =>
        obtain ⟨r2, sb⟩ := v
        try rw [h2] at h
        simp only at h
        cases h3 : ops.read sb n with
        | error e => rw [h3] at h; simp at h
        | ok v =>
          obtain ⟨buf3, sc⟩ := v
          try rw [h3] at h
          simp only at h
          cases h4 : ops.seek_start sc position with
          | error e => rw [h4] at h; simp at h
          | ok v =>
            obtain ⟨r4, sd⟩ := v
            try rw [h4] at h
            simp only [Option.some.injEq, Except.ok.injEq, Prod.mk.injEq] at h
            obtain ⟨-, h⟩ := h
            subst h
            have hp := (hsp s position s1 h1).1
            have hd := hsk sc position r4 sd h4
            rw [hd, ← hp]

/-- C7 witness: the theorem at the host-OS file model, on a concrete
4-byte file positioned at 1: reading 2 bytes at offset 0 succeeds and the
position is back at 1. -/
theorem c7_read_at_preserves_position_witness :
    osFileOps.pos ⟨[1, 2, 3, 4], 1⟩ = osFileOps.pos ⟨[1, 2, 3, 4], 1⟩ ∧
    read_exact_bytes_at osFileOps ⟨[1, 2, 3, 4], 1⟩ 2 0 =
      .ok ([1, 2], ⟨[1, 2, 3, 4], 1⟩) :=
  ⟨(c7_read_at_preserves_position osFileOps osFileOps_sp_law osFileOps_seek_law).1
      ⟨[1, 2, 3, 4], 1⟩ 2 0 [1, 2] ⟨[1, 2, 3, 4], 1⟩ (by decide),
    by decide⟩

end DtsTools
